import Mathlib

set_option maxHeartbeats 1000000

/-
  Verification development for the Hugin web crawler and search engine.

  The JavaScript source is shallowly embedded: strings are lists of
  characters (`Str`), the WHATWG URL object is a record of its components,
  asynchronous functions become pure functions (fallible steps return
  `Option`), and the crawl loop becomes a fuel-indexed transition function
  over an explicit state record.  Timestamps and log output are dropped:
  they carry no program logic.  Character case mapping models the ASCII
  fragment of JavaScript's toLowerCase, which is the fragment exercised by
  the directives and examples under study.
-/

abbrev Str := List Char

/-- Character membership in the JavaScript whitespace class, restricted to
the ASCII whitespace characters used by the corpus. -/
def isWsChar (c : Char) : Bool :=
  c == ' ' || c == '\t' || c == '\n' || c == '\r'

/-- Boolean test that the first list is a prefix of the second. -/
def isPrefixL : Str → Str → Bool
  | [], _ => true
  | _ :: _, [] => false
  | a :: as, b :: bs => a == b && isPrefixL as bs

/-- Boolean test that the first list is a suffix of the second
(JavaScript endsWith). -/
def isSuffixL (needle hay : Str) : Bool :=
  isPrefixL needle.reverse hay.reverse

/-- JavaScript String.prototype.includes : does hay contain needle as a
contiguous substring. -/
def containsSub (hay needle : Str) : Bool :=
  if isPrefixL needle hay then true
  else
    match hay with
    | [] => false
    | _ :: t => containsSub t needle

/-
  WHATWG URL model: the components of a parsed URL that the crawler
  touches.  Ports and query strings were not exercised by the source's
  normalization logic and are folded into the host and pathname components
  of the restricted grammar scheme://host/path#fragment.
-/

structure UrlObj where
  scheme : Str
  host : Str
  pathname : Str
  hash : Str
deriving DecidableEq

/-- Parse a URL of the restricted grammar scheme://host/path#fragment.
Returns none when the string is not of that shape (JavaScript new URL
throwing). The WHATWG rule that a special-scheme URL with an empty path
serializes with path "/" is applied at parse time. -/
def parseUrl (l : Str) : Option UrlObj :=
  let scheme := l.takeWhile (· != ':')
  match l.dropWhile (· != ':') with
  | c0 :: c1 :: c2 :: rest =>
    if c0 = ':' ∧ c1 = '/' ∧ c2 = '/' ∧ scheme ≠ [] then
      let host := rest.takeWhile (fun c => c != '/' && c != '#')
      if host = [] then none
      else
        let rest2 := rest.dropWhile (fun c => c != '/' && c != '#')
        let path := rest2.takeWhile (· != '#')
        let frag := match rest2.dropWhile (· != '#') with
          | _ :: f => f
          | [] => []
        some ⟨scheme, host, if path = [] then ['/'] else path, frag⟩
    else none
  | _ => none

/-- Serialize a UrlObj back to its href string. An empty fragment
serializes without the hash mark. -/
def serializeUrl (o : UrlObj) : Str :=
  o.scheme ++ ':' :: '/' :: '/' ::
    (o.host ++ o.pathname ++ (if o.hash = [] then [] else '#' :: o.hash))

/-- The pathname rewriting inside normalizeUrl from src/services/crawler.js:
strip one trailing slash from a pathname longer than one character, then
force an empty pathname to the root slash. -/
def normPath (P : Str) : Str :=
  let p :=
    if 1 < P.length ∧ P.getLast? = some '/' then P.dropLast else P
  if p = [] then ['/'] else p

/-- The component-level normalization steps of normalizeUrl from
src/services/crawler.js: rewrite the pathname and clear the fragment. -/
def normalizeObj (o : UrlObj) : UrlObj :=
  { o with pathname := normPath o.pathname, hash := [] }

/-- normalizeUrl from src/services/crawler.js: parse, normalize the
components, reserialize.  none models the JavaScript URL constructor
throwing on malformed input. -/
def normalizeUrl (l : Str) : Option Str :=
  (parseUrl l).map (fun o => serializeUrl (normalizeObj o))

/-- Hostname of a URL string (new URL(u).hostname). -/
def hostnameOf (l : Str) : Option Str :=
  (parseUrl l).map UrlObj.host

/-- The structural facts the parser guarantees about any object it
produces. -/
structure ParsedWF (o : UrlObj) : Prop where
  scheme_ne : o.scheme ≠ []
  colon_scheme : ':' ∉ o.scheme
  host_ne : o.host ≠ []
  host_chars : ∀ c ∈ o.host, c ≠ '/' ∧ c ≠ '#'
  path_head : o.pathname.head? = some '/'
  hash_path : '#' ∉ o.pathname

theorem of_mem_takeWhile {p : Char → Bool} {l : Str} {a : Char}
    (h : a ∈ l.takeWhile p) : p a = true := by
  induction l with
  | nil => simp [List.takeWhile] at h
  | cons b t ih =>
    rw [List.takeWhile_cons] at h
    by_cases hb : p b = true
    · simp [hb] at h
      rcases h with h | h
      · exact h ▸ hb
      · exact ih h
    · simp [hb] at h

theorem takeWhile_append_stop {p : Char → Bool} {l : Str} (c : Char) (r : Str)
    (hl : ∀ a ∈ l, p a = true) (hc : p c = false) :
    (l ++ c :: r).takeWhile p = l ∧ (l ++ c :: r).dropWhile p = c :: r := by
  induction l with
  | nil => simp [List.takeWhile_cons, List.dropWhile_cons, hc]
  | cons b t ih =>
    have hb : p b = true := hl b (by simp)
    have ht : ∀ a ∈ t, p a = true := fun a ha => hl a (by simp [ha])
    rcases ih ht with ⟨h1, h2⟩
    simp [List.takeWhile_cons, List.dropWhile_cons, hb, h1, h2]

theorem takeWhile_all {p : Char → Bool} {l : Str}
    (hl : ∀ a ∈ l, p a = true) :
    l.takeWhile p = l ∧ l.dropWhile p = [] := by
  induction l with
  | nil => simp
  | cons b t ih =>
    have hb : p b = true := hl b (by simp)
    have ht : ∀ a ∈ t, p a = true := fun a ha => hl a (by simp [ha])
    rcases ih ht with ⟨h1, h2⟩
    simp [List.takeWhile_cons, List.dropWhile_cons, hb, h1, h2]

theorem parseUrl_wf {l : Str} {o : UrlObj} (h : parseUrl l = some o) :
    ParsedWF o := by
  unfold parseUrl at h
  rcases hdrop : l.dropWhile (· != ':') with _ | ⟨c, rest0⟩ <;>
    rw [hdrop] at h
  · simp at h
  rcases rest0 with _ | ⟨c1, rest1⟩
  · simp at h
  rcases rest1 with _ | ⟨c2, rest⟩
  · simp at h
  simp only at h
  by_cases hcs : c = ':' ∧ c1 = '/' ∧ c2 = '/' ∧ l.takeWhile (· != ':') ≠ []
  case neg => rw [if_neg hcs] at h; simp at h
  rw [if_pos hcs] at h
  obtain ⟨-, -, -, hs⟩ := hcs
  by_cases hh : rest.takeWhile (fun c => c != '/' && c != '#') = []
  · simp [hh] at h
  rw [if_neg hh] at h
  rcases Option.some.injEq _ _ ▸ h with rfl
  constructor
  · exact hs
  · intro hmem
    have := of_mem_takeWhile hmem
    simp at this
  · exact hh
  · intro a ha
    have := of_mem_takeWhile ha
    constructor
    · intro rfl1; rw [rfl1] at this; simp at this
    · intro rfl1; rw [rfl1] at this; simp at this
  · by_cases hp : (rest.dropWhile (fun c => c != '/' && c != '#')).takeWhile
        (· != '#') = []
    · simp [hp]
    · rw [if_neg hp]
      rcases hd : rest.dropWhile (fun c => c != '/' && c != '#') with
        _ | ⟨d, ds⟩
      · rw [hd] at hp; simp at hp
      · have hdfalse : (fun c => c != '/' && c != '#') d = false := by
          have := List.head?_dropWhile_not (fun c => c != '/' && c != '#') rest
          rw [hd] at this
          simpa using this
        simp only [Bool.and_eq_false_iff, bne_eq_false_iff_eq] at hdfalse
        rcases hdfalse with rfl | rfl
        · simp [List.takeWhile_cons]
        · rw [hd] at hp
          simp [List.takeWhile_cons] at hp
  · by_cases hp : (rest.dropWhile (fun c => c != '/' && c != '#')).takeWhile
        (· != '#') = []
    · simp [hp]
    · rw [if_neg hp]
      intro hmem
      have := of_mem_takeWhile hmem
      simp at this

theorem parseUrl_serializeUrl {o : UrlObj} (h : ParsedWF o) :
    parseUrl (serializeUrl o) = some o := by
  obtain ⟨hs, hcs, hh, hhc, hph, hhp⟩ := h
  obtain ⟨pt, hpt⟩ : ∃ pt, o.pathname = '/' :: pt := by
    cases hp : o.pathname with
    | nil => rw [hp] at hph; simp at hph
    | cons a t =>
      rw [hp] at hph
      simp only [List.head?_cons, Option.some.injEq] at hph
      exact ⟨t, by rw [hph]⟩
  have hl1 : ∀ a ∈ o.scheme, (a != ':') = true := by
    intro a ha
    simp only [bne_iff_ne, ne_eq]
    exact fun he => hcs (he ▸ ha)
  have hsplit1 := takeWhile_append_stop (p := (· != ':')) ':'
    ('/' :: '/' :: (o.host ++ o.pathname ++
      (if o.hash = [] then [] else '#' :: o.hash))) hl1 (by simp)
  have hl2 : ∀ a ∈ o.host, ((fun c => c != '/' && c != '#') a) = true := by
    intro a ha
    obtain ⟨h1, h2⟩ := hhc a ha
    simp [h1, h2]
  have hsplit2 := takeWhile_append_stop (p := fun c => c != '/' && c != '#')
    '/' (pt ++ (if o.hash = [] then [] else '#' :: o.hash)) hl2 (by simp)
  have hrest : o.host ++ o.pathname ++
      (if o.hash = [] then [] else '#' :: o.hash) =
      o.host ++ '/' :: (pt ++ (if o.hash = [] then [] else '#' :: o.hash)) := by
    rw [hpt]; simp
  unfold serializeUrl parseUrl
  rw [hsplit1.2, hsplit1.1]
  simp only
  rw [if_pos (show _ ∧ _ ∧ _ ∧ _ from by
    refine ⟨by trivial, by trivial, by trivial, hs⟩)]
  rw [hrest, hsplit2.1, hsplit2.2, if_neg hh]
  have hpconv : ('/' : Char) :: (pt ++
      (if o.hash = [] then [] else '#' :: o.hash)) =
      o.pathname ++ (if o.hash = [] then [] else '#' :: o.hash) := by
    rw [hpt]; simp
  rw [hpconv]
  by_cases hhash : o.hash = []
  · rw [if_pos hhash]
    have hall : ∀ a ∈ o.pathname, (a != '#') = true := by
      intro a ha
      simp only [bne_iff_ne, ne_eq]
      exact fun he => hhp (he ▸ ha)
    have := takeWhile_all (p := (· != '#')) hall
    rw [List.append_nil, this.1, this.2]
    simp only
    rw [if_neg (by rw [hpt]; simp)]
    rw [← hhash]
  · rw [if_neg hhash]
    have hall : ∀ a ∈ o.pathname, (a != '#') = true := by
      intro a ha
      simp only [bne_iff_ne, ne_eq]
      exact fun he => hhp (he ▸ ha)
    have hsplit3 := takeWhile_append_stop (p := (· != '#')) '#' o.hash hall
      (by simp)
    rw [hsplit3.1, hsplit3.2]
    simp only
    rw [if_neg (by rw [hpt]; simp)]

theorem normPath_head {P : Str} (h : P.head? = some '/') :
    (normPath P).head? = some '/' := by
  unfold normPath
  by_cases hc : 1 < P.length ∧ P.getLast? = some '/'
  · rw [if_pos hc]
    have hne : P.dropLast ≠ [] := by
      intro he
      have := List.length_dropLast P
      rw [he] at this
      simp at this
      omega
    rw [if_neg hne]
    rcases P with _ | ⟨a, t⟩
    · simp at h
    · rcases t with _ | ⟨b, s⟩
      · exact absurd hc (by simp)
      · simpa [List.dropLast] using h
  · rw [if_neg hc]
    have hne : P ≠ [] := by intro he; rw [he] at h; simp at h
    rw [if_neg hne]
    exact h

theorem normPath_not_mem {P : Str} {c : Char} (h : c ∉ P) (hc : c ≠ '/') :
    c ∉ normPath P := by
  unfold normPath
  by_cases hcond : 1 < P.length ∧ P.getLast? = some '/'
  · rw [if_pos hcond]
    by_cases hne : P.dropLast = []
    · rw [if_pos hne]
      simp [hc]
    · rw [if_neg hne]
      exact fun hm => h (List.dropLast_subset P hm)
  · rw [if_neg hcond]
    by_cases hne : P = []
    · rw [if_pos hne]; simp [hc]
    · rw [if_neg hne]; exact h

theorem normalizeObj_wf {o : UrlObj} (h : ParsedWF o) :
    ParsedWF (normalizeObj o) := by
  obtain ⟨hs, hcs, hh, hhc, hph, hhp⟩ := h
  exact ⟨hs, hcs, hh, hhc, normPath_head hph,
    normPath_not_mem hhp (by decide)⟩

theorem normPath_idem {P : Str} (hds : isSuffixL ['/', '/'] P = false) :
    normPath (normPath P) = normPath P := by
  by_cases hc : 1 < P.length ∧ P.getLast? = some '/'
  · have hne : P.dropLast ≠ [] := by
      intro he
      have := List.length_dropLast P
      rw [he] at this
      simp at this
      omega
    have h1 : normPath P = P.dropLast := by
      unfold normPath
      rw [if_pos hc, if_neg hne]
    rw [h1]
    have hcond : ¬ (1 < P.dropLast.length ∧ P.dropLast.getLast? = some '/') := by
      rintro ⟨-, h2⟩
      obtain ⟨ys, hys⟩ := List.getLast?_eq_some_iff.mp hc.2
      rw [hys, List.dropLast_concat] at h2
      obtain ⟨zs, hzs⟩ := List.getLast?_eq_some_iff.mp h2
      rw [hys, hzs] at hds
      unfold isSuffixL at hds
      rw [List.append_assoc, List.reverse_append] at hds
      simp [isPrefixL] at hds
    unfold normPath
    rw [if_neg hcond, if_neg hne]
  · have h1 : normPath P = if P = [] then ['/'] else P := by
      unfold normPath
      rw [if_neg hc]
    rw [h1]
    by_cases hp : P = []
    · rw [if_pos hp]
      decide
    · rw [if_neg hp]
      unfold normPath
      rw [if_neg hc, if_neg hp]

theorem normalizeObj_idem {o : UrlObj}
    (hds : isSuffixL ['/', '/'] o.pathname = false) :
    normalizeObj (normalizeObj o) = normalizeObj o := by
  unfold normalizeObj
  simp only
  rw [normPath_idem hds]

/-- Claim C4, counterexample.  The URL https://a.ygg/x// is well formed
(it parses), yet normalizing it once yields https://a.ygg/x/ while
normalizing twice yields https://a.ygg/x: normalizeUrl strips only one
trailing slash per application, so it is not idempotent on every
well-formed URL. -/
theorem normalizeUrl_not_idempotent :
    (parseUrl ("https://a.ygg/x//").data).isSome = true
    ∧ normalizeUrl ("https://a.ygg/x//").data = some ("https://a.ygg/x/").data
    ∧ normalizeUrl ("https://a.ygg/x/").data = some ("https://a.ygg/x").data
    ∧ ("https://a.ygg/x/").data ≠ ("https://a.ygg/x").data := by
  refine ⟨by decide, by decide, by decide, by decide⟩

/-- Claim C4 (amended): normalizeUrl is idempotent on every well-formed
URL whose pathname does not end in a double slash (on such a pathname a
single application removes only one of the trailing slashes, see the
counterexample), and the three concrete equalities of the claim hold as
stated: a trailing slash is stripped from a non-root path, a bare origin
gains the root slash, and the fragment is dropped. -/
theorem normalizeUrl_idempotent :
    (∀ (s : Str) (o : UrlObj), parseUrl s = some o →
      isSuffixL ['/', '/'] o.pathname = false →
      ∃ t, normalizeUrl s = some t ∧ normalizeUrl t = some t)
    ∧ normalizeUrl ("https://a.ygg/x/").data = some ("https://a.ygg/x").data
    ∧ normalizeUrl ("https://a.ygg").data = some ("https://a.ygg/").data
    ∧ normalizeUrl ("https://a.ygg/x#frag").data
        = some ("https://a.ygg/x").data := by
  refine ⟨?_, by decide, by decide, by decide⟩
  intro s o h hds
  refine ⟨serializeUrl (normalizeObj o), ?_, ?_⟩
  · unfold normalizeUrl
    rw [h]
    rfl
  · unfold normalizeUrl
    rw [parseUrl_serializeUrl (normalizeObj_wf (parseUrl_wf h))]
    simp only [Option.map_some']
    rw [normalizeObj_idem hds]

/-- Witness for the amended C4 theorem at a concrete well-formed URL. -/
theorem normalizeUrl_idempotent_witness :
    ∃ t, normalizeUrl ("https://b.ygg/p/").data = some t
      ∧ normalizeUrl t = some t :=
  normalizeUrl_idempotent.1 ("https://b.ygg/p/").data
    ⟨"https".data, "b.ygg".data, "/p/".data, []⟩ (by decide) (by decide)

/-
  Crawl Orchestrator model, from src/services/crawler.js (crawlUrl and
  savePage together with the module-level visited set).  The headless
  browser, the robots answers and the document store are abstracted as an
  environment: fetchAndParsePage's result for a given (converted) URL is
  env.world, robots.txt admission is env.robots, and success of the
  store operations inside savePage (whose try/catch swallows store
  errors) is env.saveOk.  Links reported by the renderer are absolute
  hrefs (the DOM resolves relative anchor targets), so the resolution
  new URL(link, base) is modelled as absolute parsing.  The state keeps,
  besides the frontier queue, the visited set and the processedPages
  counter of the source, three histories used only by the statements:
  the savePage calls that succeeded (persisted), all savePage calls
  (attempts), and all fetchAndParsePage calls (fetched), each tagged
  with the frontier depth of the dequeued entry.
-/

structure PageData where
  links : List Str
deriving DecidableEq

structure CrawlEnv where
  world : Str → Option PageData
  robots : Str → Bool
  saveOk : Str → Bool
  maxDepth : Nat
  maxPages : Nat
  devMode : Bool

/-- isYggdrasilDomain from src/services/crawler.js. -/
def isYggdrasilDomain (hostname : Str) : Bool :=
  isSuffixL (".ygg").data hostname || isSuffixL (".anon").data hostname

/-- isLocalhost from src/services/crawler.js. -/
def isLocalhost (hostname : Str) : Bool :=
  hostname == ("localhost").data ||
  hostname == ("127.0.0.1").data ||
  isPrefixL ("192.168.").data hostname ||
  isPrefixL ("10.").data hostname ||
  isPrefixL ("172.16.").data hostname ||
  isPrefixL ("[::1]").data hostname

/-- isAllowedDomain from src/services/crawler.js; devMode models
DEVELOPMENT_MODE === true. -/
def isAllowedDomain (devMode : Bool) (hostname : Str) : Bool :=
  if devMode && isLocalhost hostname then true
  else isYggdrasilDomain hostname

/-- convertUrlForCrawling from src/services/crawler.js. -/
def convertUrlForCrawling (devMode : Bool) (url : Str) : Str :=
  if devMode then
    match parseUrl url with
    | none => url
    | some o =>
      if isLocalhost o.host then
        serializeUrl { o with host := ("host.docker.internal").data }
      else url
  else url

structure CrawlState where
  queue : List (Str × Nat)
  visited : List Str
  processed : Nat
  persisted : List (Str × Nat)
  attempts : List (Str × Nat)
  fetched : List (Str × Nat)
deriving DecidableEq

/-- The dev-mode host.docker.internal to localhost back-conversion from
the link loop of crawlUrl. -/
def backConvertHost (devMode : Bool) (lo : UrlObj) : UrlObj :=
  if devMode && (lo.host == ("host.docker.internal").data) then
    { lo with host := ("localhost").data }
  else lo

/-- Admission filtering for one discovered link, from the body of the
for-of loop over pageData.links in crawlUrl; vis is the visited set at
enqueue time. -/
def linkCandidate (env : CrawlEnv) (baseDomain : Str) (vis : List Str)
    (depth : Nat) (link : Str) : Option (Str × Nat) :=
  match parseUrl link with
  | none => none
  | some lo =>
    match normalizeUrl (serializeUrl (backConvertHost env.devMode lo)) with
    | none => none
    | some nl =>
      match hostnameOf nl with
      | none => none
      | some lh =>
        if lh = baseDomain ∧ isAllowedDomain env.devMode lh = true ∧ nl ∉ vis
        then some (nl, depth + 1)
        else none

/-- One iteration of the while loop of crawlUrl: dequeue, skip visited or
too-deep entries, consult robots, fetch, persist, mark visited, count,
and enqueue admissible links when depth < maxDepth. -/
def crawlStep (env : CrawlEnv) (baseDomain : Str) (s : CrawlState) :
    CrawlState :=
  match s.queue with
  | [] => s
  | (url, depth) :: rest =>
    if url ∈ s.visited ∨ env.maxDepth < depth then { s with queue := rest }
    else if env.robots url = false then { s with queue := rest }
    else
      match env.world (convertUrlForCrawling env.devMode url) with
      | none => { s with queue := rest, fetched := (url, depth) :: s.fetched }
      | some pd =>
        let newVisited := url :: s.visited
        let newLinks :=
          if depth < env.maxDepth then
            pd.links.filterMap (linkCandidate env baseDomain newVisited depth)
          else []
        { queue := rest ++ newLinks
          visited := newVisited
          processed := s.processed + 1
          persisted :=
            if env.saveOk url then (url, depth) :: s.persisted
            else s.persisted
          attempts := (url, depth) :: s.attempts
          fetched := (url, depth) :: s.fetched }

/-- The while loop of crawlUrl, running while the queue is nonempty and
processedPages < maxPages; fuel bounds the number of iterations. -/
def crawlLoop (env : CrawlEnv) (baseDomain : Str) :
    Nat → CrawlState → CrawlState
  | 0, s => s
  | fuel + 1, s =>
    if s.queue = [] ∨ env.maxPages ≤ s.processed then s
    else crawlLoop env baseDomain fuel (crawlStep env baseDomain s)

/-- Frontier initialization of crawlUrl: normalize the seed, take its
hostname as baseDomain, seed the queue with the seed at depth 0 followed
by the same-domain admissible sitemap URLs at depth 1, deduplicated
against the process-wide visited set v0. -/
def crawlInit (env : CrawlEnv) (startUrl : Str) (sitemaps : List Str)
    (v0 : List Str) : Option (Str × CrawlState) :=
  match normalizeUrl startUrl with
  | none => none
  | some nstart =>
    match parseUrl nstart with
    | none => none
    | some bo =>
      let baseDomain := bo.host
      let sitemapEntries := sitemaps.filterMap (fun su =>
        match parseUrl su with
        | none => none
        | some so =>
          if so.host = baseDomain ∧ isAllowedDomain env.devMode so.host = true
          then
            match normalizeUrl su with
            | none => none
            | some n => if n ∈ v0 then none else some (n, 1)
          else none)
      some (baseDomain,
        { queue := (nstart, 0) :: sitemapEntries
          visited := v0
          processed := 0
          persisted := []
          attempts := []
          fetched := [] })

/-- A whole crawl invocation: initialization followed by the loop. -/
def crawlRun (env : CrawlEnv) (startUrl : Str) (sitemaps : List Str)
    (v0 : List Str) (fuel : Nat) : Option CrawlState :=
  (crawlInit env startUrl sitemaps v0).map
    (fun p => crawlLoop env p.1 fuel p.2)

theorem crawlLoop_inv (env : CrawlEnv) (bd : Str) (Inv : CrawlState → Prop)
    (hstep : ∀ s, Inv s → Inv (crawlStep env bd s)) :
    ∀ fuel s, Inv s → Inv (crawlLoop env bd fuel s) := by
  intro fuel
  induction fuel with
  | zero => intro s h; exact h
  | succ n ih =>
    intro s h
    unfold crawlLoop
    by_cases hc : s.queue = [] ∨ env.maxPages ≤ s.processed
    · rw [if_pos hc]; exact h
    · rw [if_neg hc]; exact ih _ (hstep s h)

theorem linkCandidate_spec {env : CrawlEnv} {bd : Str} {vis : List Str}
    {depth : Nat} {link : Str} {e : Str × Nat}
    (h : linkCandidate env bd vis depth link = some e) :
    e.2 = depth + 1 ∧ hostnameOf e.1 = some bd ∧
    isAllowedDomain env.devMode bd = true ∧ e.1 ∉ vis := by
  unfold linkCandidate at h
  split at h
  · simp at h
  next lo _ =>
    split at h
    · simp at h
    next nl hnl =>
      split at h
      · simp at h
      next lh hlh =>
        split at h
        next hcond =>
          obtain ⟨h1, h2, h3⟩ := hcond
          obtain rfl := Option.some.inj h
          subst h1
          exact ⟨rfl, hlh, h2, h3⟩
        next => simp at h

theorem crawlStep_enqueue (env : CrawlEnv) (bd : Str) (s : CrawlState) :
    ∀ e ∈ (crawlStep env bd s).queue, e ∈ s.queue ∨
      ∃ u d rest, s.queue = (u, d) :: rest ∧ d < env.maxDepth ∧
        e.2 = d + 1 := by
  intro e he
  unfold crawlStep at he
  split at he
  · exact Or.inl he
  next u d rest hq =>
    split at he
    · exact Or.inl (hq ▸ List.mem_cons_of_mem _ he)
    split at he
    · exact Or.inl (hq ▸ List.mem_cons_of_mem _ he)
    split at he
    · exact Or.inl (hq ▸ List.mem_cons_of_mem _ he)
    next pd hw =>
      simp only [List.mem_append] at he
      rcases he with he | he
      · exact Or.inl (hq ▸ List.mem_cons_of_mem _ he)
      · split at he
        next hdep =>
          obtain ⟨link, -, hlc⟩ := List.mem_filterMap.mp he
          exact Or.inr ⟨u, d, rest, hq, hdep, (linkCandidate_spec hlc).1⟩
        next => simp at he

theorem crawlStep_depth_inv {env : CrawlEnv} {bd : Str} {s : CrawlState}
    (h : (∀ p ∈ s.persisted, p.2 ≤ env.maxDepth) ∧
         (∀ f ∈ s.fetched, f.2 ≤ env.maxDepth)) :
    (∀ p ∈ (crawlStep env bd s).persisted, p.2 ≤ env.maxDepth) ∧
    (∀ f ∈ (crawlStep env bd s).fetched, f.2 ≤ env.maxDepth) := by
  unfold crawlStep
  split
  · exact h
  next u d rest hq =>
    split
    · exact h
    next h1 =>
      have hd : d ≤ env.maxDepth := by
        rcases not_or.mp h1 with ⟨-, hnd⟩
        omega
      split
      · exact h
      split
      · refine ⟨h.1, ?_⟩
        intro f hf
        rcases List.mem_cons.mp hf with rfl | hf
        · exact hd
        · exact h.2 f hf
      next pd hw =>
        refine ⟨?_, ?_⟩
        · intro p hp
          by_cases hs : env.saveOk u = true
          · rw [if_pos hs] at hp
            rcases List.mem_cons.mp hp with rfl | hp
            · exact hd
            · exact h.1 p hp
          · rw [if_neg hs] at hp
            exact h.1 p hp
        · intro f hf
          rcases List.mem_cons.mp hf with rfl | hf
          · exact hd
          · exact h.2 f hf

theorem crawlInit_inv {env : CrawlEnv} {startUrl : Str} {sitemaps : List Str}
    {v0 : List Str} {bd : Str} {st0 : CrawlState}
    (h : crawlInit env startUrl sitemaps v0 = some (bd, st0)) :
    st0.visited = v0 ∧ st0.processed = 0 ∧ st0.persisted = [] ∧
    st0.attempts = [] ∧ st0.fetched = [] ∧
    (∀ e ∈ st0.queue, hostnameOf e.1 = some bd) ∧
    (∀ e ∈ st0.queue.tail, isAllowedDomain env.devMode bd = true) := by
  unfold crawlInit at h
  split at h
  · simp at h
  next nstart hn =>
    split at h
    · simp at h
    next bo hp =>
      obtain ⟨h1, h2⟩ := Prod.mk.injEq _ _ _ _ ▸ Option.some.inj h
      subst h1
      subst h2
      refine ⟨rfl, rfl, rfl, rfl, rfl, ?_, ?_⟩
      · intro e he
        rcases List.mem_cons.mp he with rfl | he
        · unfold hostnameOf
          rw [hp]
          rfl
        · obtain ⟨su, -, hsu⟩ := List.mem_filterMap.mp he
          split at hsu
          · simp at hsu
          next so hso =>
            split at hsu
            next hcond =>
              split at hsu
              · simp at hsu
              next n hnorm =>
                split at hsu
                · simp at hsu
                · obtain rfl := Option.some.inj hsu
                  have hwf := parseUrl_wf hso
                  have : normalizeUrl su =
                      some (serializeUrl (normalizeObj so)) := by
                    unfold normalizeUrl
                    rw [hso]
                    rfl
                  rw [this] at hnorm
                  obtain rfl := Option.some.inj hnorm
                  show hostnameOf (serializeUrl (normalizeObj so)) = _
                  unfold hostnameOf
                  rw [parseUrl_serializeUrl (normalizeObj_wf hwf)]
                  simp only [Option.map_some', Option.some.injEq]
                  exact hcond.1
            · simp at hsu
      · intro e he
        obtain ⟨su, -, hsu⟩ := List.mem_filterMap.mp he
        split at hsu
        · simp at hsu
        next so hso =>
          split at hsu
          next hcond =>
            exact hcond.1 ▸ hcond.2
          · simp at hsu

/-- Claim C5: depth bound.  In any crawl invocation, every persisted page
and every fetch comes from a frontier entry of depth at most maxDepth (a
dequeued entry deeper than maxDepth is dropped before the robots check
and the fetch), and a step enqueues a new entry only when the dequeued
parent's depth is strictly below maxDepth, at depth parent + 1. -/
theorem crawl_depth_bound (env : CrawlEnv) (startUrl : Str)
    (sitemaps v0 : List Str) (fuel : Nat) (bd : Str) (st0 : CrawlState)
    (hinit : crawlInit env startUrl sitemaps v0 = some (bd, st0)) :
    (∀ p ∈ (crawlLoop env bd fuel st0).persisted, p.2 ≤ env.maxDepth) ∧
    (∀ f ∈ (crawlLoop env bd fuel st0).fetched, f.2 ≤ env.maxDepth) ∧
    (∀ s : CrawlState, ∀ e ∈ (crawlStep env bd s).queue, e ∈ s.queue ∨
      ∃ u d rest, s.queue = (u, d) :: rest ∧ d < env.maxDepth ∧
        e.2 = d + 1) := by
  obtain ⟨-, -, hp, -, hf, -, -⟩ := crawlInit_inv hinit
  have hloop := crawlLoop_inv env bd
    (fun s => (∀ p ∈ s.persisted, p.2 ≤ env.maxDepth) ∧
      (∀ f ∈ s.fetched, f.2 ≤ env.maxDepth))
    (fun _ h => crawlStep_depth_inv h) fuel st0
    ⟨by rw [hp]; simp, by rw [hf]; simp⟩
  exact ⟨hloop.1, hloop.2, fun s => crawlStep_enqueue env bd s⟩

def envC5 : CrawlEnv :=
  { world := fun u =>
      if u = ("https://a.ygg/").data then some ⟨[("https://a.ygg/b").data]⟩
      else if u = ("https://a.ygg/b").data then some ⟨[]⟩
      else none
    robots := fun _ => true
    saveOk := fun _ => true
    maxDepth := 1
    maxPages := 100
    devMode := false }

def st0C5 : CrawlState :=
  { queue := [(("https://a.ygg/").data, 0)]
    visited := []
    processed := 0
    persisted := []
    attempts := []
    fetched := [] }

/-- Witness for C5 at a concrete two-page crawl. -/
theorem crawl_depth_bound_witness :
    (∀ p ∈ (crawlLoop envC5 ("a.ygg").data 10 st0C5).persisted,
      p.2 ≤ envC5.maxDepth) ∧
    (∀ f ∈ (crawlLoop envC5 ("a.ygg").data 10 st0C5).fetched,
      f.2 ≤ envC5.maxDepth) ∧
    (∀ s : CrawlState, ∀ e ∈ (crawlStep envC5 ("a.ygg").data s).queue,
      e ∈ s.queue ∨ ∃ u d rest, s.queue = (u, d) :: rest ∧
        d < envC5.maxDepth ∧ e.2 = d + 1) :=
  crawl_depth_bound envC5 ("https://a.ygg").data [] [] 10 ("a.ygg").data
    st0C5 (by decide)

theorem crawlStep_host_inv {env : CrawlEnv} {bd : Str} {s : CrawlState}
    (h : (∀ e ∈ s.queue, hostnameOf e.1 = some bd) ∧
         (∀ p ∈ s.persisted, hostnameOf p.1 = some bd) ∧
         (∀ f ∈ s.fetched, hostnameOf f.1 = some bd)) :
    (∀ e ∈ (crawlStep env bd s).queue, hostnameOf e.1 = some bd) ∧
    (∀ p ∈ (crawlStep env bd s).persisted, hostnameOf p.1 = some bd) ∧
    (∀ f ∈ (crawlStep env bd s).fetched, hostnameOf f.1 = some bd) := by
  unfold crawlStep
  split
  · exact h
  next u d rest hq =>
    have hu : hostnameOf u = some bd :=
      h.1 (u, d) (hq ▸ List.mem_cons_self _ _)
    have hrest : ∀ e ∈ rest, hostnameOf e.1 = some bd :=
      fun e he => h.1 e (hq ▸ List.mem_cons_of_mem _ he)
    split
    · exact ⟨hrest, h.2.1, h.2.2⟩
    split
    · exact ⟨hrest, h.2.1, h.2.2⟩
    split
    · refine ⟨hrest, h.2.1, ?_⟩
      intro f hf
      rcases List.mem_cons.mp hf with rfl | hf
      · exact hu
      · exact h.2.2 f hf
    next pd hw =>
      refine ⟨?_, ?_, ?_⟩
      · intro e he
        rcases List.mem_append.mp he with he | he
        · exact hrest e he
        · split at he
          · obtain ⟨link, -, hlc⟩ := List.mem_filterMap.mp he
            exact (linkCandidate_spec hlc).2.1
          · simp at he
      · intro p hp
        by_cases hs : env.saveOk u = true
        · rw [if_pos hs] at hp
          rcases List.mem_cons.mp hp with rfl | hp
          · exact hu
          · exact h.2.1 p hp
        · rw [if_neg hs] at hp
          exact h.2.1 p hp
      · intro f hf
        rcases List.mem_cons.mp hf with rfl | hf
        · exact hu
        · exact h.2.2 f hf

/-- Claim C6: domain confinement.  Every page persisted and every URL
fetched by a crawl invocation has the seed's hostname; the sitemap-seeded
tail of the initial frontier additionally passed the domain allow-list,
and any entry a step adds to the frontier has the seed hostname and
passed the allow-list. -/
theorem crawl_domain_confinement (env : CrawlEnv) (startUrl : Str)
    (sitemaps v0 : List Str) (fuel : Nat) (bd : Str) (st0 : CrawlState)
    (hinit : crawlInit env startUrl sitemaps v0 = some (bd, st0)) :
    (∀ p ∈ (crawlLoop env bd fuel st0).persisted,
      hostnameOf p.1 = some bd) ∧
    (∀ f ∈ (crawlLoop env bd fuel st0).fetched, hostnameOf f.1 = some bd) ∧
    (∀ e ∈ st0.queue.tail, isAllowedDomain env.devMode bd = true) ∧
    (∀ s : CrawlState, ∀ e ∈ (crawlStep env bd s).queue, e ∈ s.queue ∨
      (hostnameOf e.1 = some bd ∧
        isAllowedDomain env.devMode bd = true)) := by
  obtain ⟨-, -, hp, -, hf, hq, ht⟩ := crawlInit_inv hinit
  have hloop := crawlLoop_inv env bd
    (fun s => (∀ e ∈ s.queue, hostnameOf e.1 = some bd) ∧
      (∀ p ∈ s.persisted, hostnameOf p.1 = some bd) ∧
      (∀ f ∈ s.fetched, hostnameOf f.1 = some bd))
    (fun _ h => crawlStep_host_inv h) fuel st0
    ⟨hq, by rw [hp]; simp, by rw [hf]; simp⟩
  refine ⟨hloop.2.1, hloop.2.2, ht, ?_⟩
  intro s e he
  unfold crawlStep at he
  split at he
  · exact Or.inl he
  next u d rest hqq =>
    split at he
    · exact Or.inl (hqq ▸ List.mem_cons_of_mem _ he)
    split at he
    · exact Or.inl (hqq ▸ List.mem_cons_of_mem _ he)
    split at he
    · exact Or.inl (hqq ▸ List.mem_cons_of_mem _ he)
    next pd hw =>
      simp only [List.mem_append] at he
      rcases he with he | he
      · exact Or.inl (hqq ▸ List.mem_cons_of_mem _ he)
      · split at he
        next =>
          obtain ⟨link, -, hlc⟩ := List.mem_filterMap.mp he
          obtain ⟨-, h2, h3, -⟩ := linkCandidate_spec hlc
          exact Or.inr ⟨h2, h3⟩
        next => simp at he

def envC6 : CrawlEnv :=
  { world := fun u =>
      if u = ("https://c.ygg/").data then
        some ⟨[("https://c.ygg/p").data, ("https://other.ygg/q").data]⟩
      else if u = ("https://c.ygg/p").data then some ⟨[]⟩
      else none
    robots := fun _ => true
    saveOk := fun _ => true
    maxDepth := 2
    maxPages := 100
    devMode := false }

def st0C6 : CrawlState :=
  { queue := [(("https://c.ygg/").data, 0)]
    visited := []
    processed := 0
    persisted := []
    attempts := []
    fetched := [] }

/-- Witness for C6 at a concrete crawl whose seed page links off-site. -/
theorem crawl_domain_confinement_witness :
    (∀ p ∈ (crawlLoop envC6 ("c.ygg").data 10 st0C6).persisted,
      hostnameOf p.1 = some ("c.ygg").data) ∧
    (∀ f ∈ (crawlLoop envC6 ("c.ygg").data 10 st0C6).fetched,
      hostnameOf f.1 = some ("c.ygg").data) ∧
    (∀ e ∈ st0C6.queue.tail, isAllowedDomain envC6.devMode ("c.ygg").data
      = true) ∧
    (∀ s : CrawlState, ∀ e ∈ (crawlStep envC6 ("c.ygg").data s).queue,
      e ∈ s.queue ∨ (hostnameOf e.1 = some ("c.ygg").data ∧
        isAllowedDomain envC6.devMode ("c.ygg").data = true)) :=
  crawl_domain_confinement envC6 ("https://c.ygg").data [] [] 10
    ("c.ygg").data st0C6 (by decide)

theorem crawlStep_count_inv {env : CrawlEnv} {bd : Str} {s : CrawlState}
    (hsave : ∀ u, env.saveOk u = true)
    (h : s.processed = s.persisted.length) :
    (crawlStep env bd s).processed =
      (crawlStep env bd s).persisted.length := by
  unfold crawlStep
  split
  · exact h
  next u d rest hq =>
    split
    · exact h
    split
    · exact h
    split
    · exact h
    next pd hw =>
      show s.processed + 1 =
        (if env.saveOk u = true then (u, d) :: s.persisted
          else s.persisted).length
      rw [if_pos (hsave u)]
      simp [h]

/-- Claim C8 (amended): when every savePage attempt succeeds, the
processedPages counter written by the completion update equals the
number of pages persisted by the invocation.  (The source increments the
counter once per savePage call; savePage swallows store errors, so on a
failing store the counter can exceed the number of pages actually
persisted — see the counterexample.) -/
theorem crawl_pages_processed (env : CrawlEnv) (startUrl : Str)
    (sitemaps v0 : List Str) (fuel : Nat) (bd : Str) (st0 : CrawlState)
    (hinit : crawlInit env startUrl sitemaps v0 = some (bd, st0))
    (hsave : ∀ u, env.saveOk u = true) :
    (crawlLoop env bd fuel st0).processed =
      (crawlLoop env bd fuel st0).persisted.length := by
  obtain ⟨-, hp0, hp, -, -, -, -⟩ := crawlInit_inv hinit
  exact crawlLoop_inv env bd
    (fun s => s.processed = s.persisted.length)
    (fun _ h => crawlStep_count_inv hsave h) fuel st0
    (by show st0.processed = st0.persisted.length; rw [hp0, hp]; rfl)

def envC8bad : CrawlEnv :=
  { world := fun u =>
      if u = ("https://d.ygg/").data then some ⟨[]⟩ else none
    robots := fun _ => true
    saveOk := fun _ => false
    maxDepth := 1
    maxPages := 100
    devMode := false }

/-- Claim C8, counterexample.  With a store whose inserts fail (savePage
catches and logs the error), the crawl of a single page still increments
processedPages: the completion update would write pagesProcessed = 1
while zero pages were persisted, refuting the claimed equality between
the counter and the pages actually persisted. -/
theorem crawl_pages_processed_counterexample :
    (crawlRun envC8bad ("https://d.ygg").data [] [] 5).map
      CrawlState.processed = some 1 ∧
    (crawlRun envC8bad ("https://d.ygg").data [] [] 5).map
      (fun st => st.persisted.length) = some 0 ∧
    (crawlRun envC8bad ("https://d.ygg").data [] [] 5).map
      (fun st => st.attempts.length) = some 1 := by
  refine ⟨by decide, by decide, by decide⟩

def envC8ok : CrawlEnv :=
  { world := fun u =>
      if u = ("https://d.ygg/").data then some ⟨[("https://d.ygg/p").data]⟩
      else if u = ("https://d.ygg/p").data then some ⟨[]⟩
      else none
    robots := fun _ => true
    saveOk := fun _ => true
    maxDepth := 1
    maxPages := 100
    devMode := false }

def st0C8 : CrawlState :=
  { queue := [(("https://d.ygg/").data, 0)]
    visited := []
    processed := 0
    persisted := []
    attempts := []
    fetched := [] }

/-- Witness for the amended C8 theorem at a concrete two-page crawl. -/
theorem crawl_pages_processed_witness :
    (crawlLoop envC8ok ("d.ygg").data 10 st0C8).processed =
      (crawlLoop envC8ok ("d.ygg").data 10 st0C8).persisted.length :=
  crawl_pages_processed envC8ok ("https://d.ygg").data [] [] 10
    ("d.ygg").data st0C8 (by decide) (fun _ => rfl)

theorem crawlStep_visited_inv {env : CrawlEnv} {bd : Str} {v0 : List Str}
    {s : CrawlState}
    (h : (∀ u ∈ s.visited, u ∈ v0 ∨ ∃ d, (u, d) ∈ s.attempts) ∧
         (∀ e ∈ s.attempts, env.robots e.1 = true ∧
           (env.world (convertUrlForCrawling env.devMode e.1)).isSome
             = true)) :
    (∀ u ∈ (crawlStep env bd s).visited, u ∈ v0 ∨
      ∃ d, (u, d) ∈ (crawlStep env bd s).attempts) ∧
    (∀ e ∈ (crawlStep env bd s).attempts, env.robots e.1 = true ∧
      (env.world (convertUrlForCrawling env.devMode e.1)).isSome
        = true) := by
  unfold crawlStep
  split
  · exact h
  next u d rest hq =>
    split
    · exact h
    next h1 =>
      split
      · exact h
      next h2 =>
        have hr : env.robots u = true := by
          rcases Bool.eq_false_or_eq_true (env.robots u) with hh | hh
          · exact hh
          · exact absurd hh h2
        split
        · exact h
        next pd hw =>
          refine ⟨?_, ?_⟩
          · intro x hx
            rcases List.mem_cons.mp hx with rfl | hx
            · exact Or.inr ⟨d, List.mem_cons_self _ _⟩
            · rcases h.1 x hx with hv | ⟨dd, hd⟩
              · exact Or.inl hv
              · exact Or.inr ⟨dd, List.mem_cons_of_mem _ hd⟩
          · intro e he
            rcases List.mem_cons.mp he with rfl | he
            · exact ⟨hr, by rw [hw]; rfl⟩
            · exact h.2 e he

/-- Claim C10: a URL enters the process-wide visited set only through a
savePage attempt, which in turn happens only when robots.txt admitted
the URL and fetchAndParsePage returned a non-null result; URLs skipped
by robots.txt, by a failed fetch, or by a noindex null result are never
marked visited. -/
theorem crawl_visited_only_after_fetch (env : CrawlEnv) (startUrl : Str)
    (sitemaps v0 : List Str) (fuel : Nat) (bd : Str) (st0 : CrawlState)
    (hinit : crawlInit env startUrl sitemaps v0 = some (bd, st0)) :
    (∀ u ∈ (crawlLoop env bd fuel st0).visited, u ∈ v0 ∨
      ∃ d, (u, d) ∈ (crawlLoop env bd fuel st0).attempts) ∧
    (∀ e ∈ (crawlLoop env bd fuel st0).attempts, env.robots e.1 = true ∧
      (env.world (convertUrlForCrawling env.devMode e.1)).isSome
        = true) := by
  obtain ⟨hv, -, -, ha, -, -, -⟩ := crawlInit_inv hinit
  exact crawlLoop_inv env bd
    (fun s => (∀ u ∈ s.visited, u ∈ v0 ∨
        ∃ d, (u, d) ∈ s.attempts) ∧
      (∀ e ∈ s.attempts, env.robots e.1 = true ∧
        (env.world (convertUrlForCrawling env.devMode e.1)).isSome
          = true))
    (fun _ h => crawlStep_visited_inv h) fuel st0
    ⟨by rw [hv]; exact fun u hu => Or.inl hu, by rw [ha]; simp⟩

def envC10 : CrawlEnv :=
  { world := fun u =>
      if u = ("https://e.ygg/").data then some ⟨[("https://e.ygg/n").data]⟩
      else none
    robots := fun u => u ≠ ("https://e.ygg/n").data
    saveOk := fun _ => true
    maxDepth := 3
    maxPages := 100
    devMode := false }

def st0C10 : CrawlState :=
  { queue := [(("https://e.ygg/").data, 0)]
    visited := []
    processed := 0
    persisted := []
    attempts := []
    fetched := [] }

/-- Witness for C10 at a concrete crawl with a robots-disallowed link
and a link whose fetch fails: neither may end up visited. -/
theorem crawl_visited_only_after_fetch_witness :
    (∀ u ∈ (crawlLoop envC10 ("e.ygg").data 10 st0C10).visited, u ∈
      ([] : List Str) ∨
      ∃ d, (u, d) ∈ (crawlLoop envC10 ("e.ygg").data 10 st0C10).attempts) ∧
    (∀ e ∈ (crawlLoop envC10 ("e.ygg").data 10 st0C10).attempts,
      envC10.robots e.1 = true ∧
      (envC10.world (convertUrlForCrawling envC10.devMode e.1)).isSome
        = true) :=
  crawl_visited_only_after_fetch envC10 ("https://e.ygg").data [] [] 10
    ("e.ygg").data st0C10 (by decide)

/-
  Relevance Search Engine model, from the searchContent service
  (src/services/search.js, the revision with relevance ranking and
  post-sort pagination).  The document store's find is abstracted as the
  retrieved candidate list in retrieval order.  calculateRelevance
  returns a JavaScript float (it mixes integer boosts with a logarithm);
  since the sorting and pagination behaviour under study is independent
  of the score values, the scoring function is a parameter with integer
  scores.  JavaScript's Array.prototype.sort is stable (required by the
  language specification), and a stable sort's output is determined
  uniquely by the comparator and the input order, so the in-place sort
  with comparator b.score - a.score is modelled by a stable descending
  insertion sort.
-/

/-- Lowercasing of a JavaScript string, ASCII fragment. -/
def jsToLower (s : String) : String :=
  String.mk (s.data.map Char.toLower)

structure SearchDoc where
  url : String
  title : String
  domain : String
  metaDescription : String
  metaKeywords : String
  metaAuthor : String
  crawledAt : String
  content : String
  nosnippet : Bool
deriving DecidableEq

structure SearchResult where
  url : String
  title : String
  domain : String
  snippet : String
  metaDescription : String
  metaKeywords : String
  metaAuthor : String
  crawledAt : String
  score : Int
deriving DecidableEq

structure SearchResponse where
  query : String
  total : Nat
  limit : Nat
  offset : Nat
  results : List SearchResult
deriving DecidableEq

/-- Index of the first occurrence of needle in hay (String.indexOf). -/
def indexOfSubL (hay needle : Str) : Option Nat :=
  if isPrefixL needle hay then some 0
  else
    match hay with
    | [] => none
    | _ :: t => (indexOfSubL t needle).map (· + 1)

/-- generateSnippet from the search service: a window of 100 characters
on each side of the first case-insensitive occurrence of the query in
the content, with ellipses on truncated sides; the first 200 characters
plus an ellipsis when the query does not occur. -/
def generateSnippet (content query : String) : String :=
  if content = "" then ""
  else
    match indexOfSubL (jsToLower content).data (jsToLower query).data with
    | none => String.mk (content.data.take 200) ++ "..."
    | some i =>
      let e := min content.length (i + query.length + 100)
      let s := i - 100
      let snippet := String.mk ((content.data.take e).drop s)
      let snippet := if 0 < s then "..." ++ snippet else snippet
      if e < content.length then snippet ++ "..." else snippet

/-- The per-document result record built inside searchContent's map. -/
def mkSearchResult (calcRel : SearchDoc → String → Int) (query : String)
    (doc : SearchDoc) : SearchResult :=
  { url := doc.url
    title := doc.title
    domain := doc.domain
    snippet := if doc.nosnippet then "" else generateSnippet doc.content query
    metaDescription := if doc.nosnippet then "" else doc.metaDescription
    metaKeywords := doc.metaKeywords
    metaAuthor := doc.metaAuthor
    crawledAt := doc.crawledAt
    score := calcRel doc query }

/-- The candidate results in retrieval order, before sorting. -/
def candidateResults (calcRel : SearchDoc → String → Int)
    (docs : List SearchDoc) (query : String) : List SearchResult :=
  docs.map (mkSearchResult calcRel query)

/-- Insertion into a descending-sorted list, placing the new element
before the first element whose score is less than or equal to its own:
the unique position a stable descending sort gives an element arriving
after the already-sorted ones. -/
def jsOrderedInsert (a : SearchResult) :
    List SearchResult → List SearchResult
  | [] => [a]
  | b :: l =>
    if b.score ≤ a.score then a :: b :: l else b :: jsOrderedInsert a l

/-- Stable descending sort by score, modelling results.sort with
comparator b.score - a.score. -/
def jsStableSortDesc : List SearchResult → List SearchResult
  | [] => []
  | a :: l => jsOrderedInsert a (jsStableSortDesc l)

/-- searchContent from the search service: map the retrieved candidates
to scored results, sort by relevance, paginate after sorting, and report
the number of retrieved candidates as total. -/
def searchContent (calcRel : SearchDoc → String → Int)
    (docs : List SearchDoc) (query : String) (lim offset : Nat) :
    SearchResponse :=
  let results := candidateResults calcRel docs query
  let sorted := jsStableSortDesc results
  { query := query
    total := results.length
    limit := lim
    offset := offset
    results := (sorted.drop offset).take lim }

theorem jsOrderedInsert_perm (a : SearchResult) (l : List SearchResult) :
    (jsOrderedInsert a l).Perm (a :: l) := by
  induction l with
  | nil => rfl
  | cons b t ih =>
    unfold jsOrderedInsert
    by_cases hb : b.score ≤ a.score
    · rw [if_pos hb]
    · rw [if_neg hb]
      exact (ih.cons b).trans (List.Perm.swap a b t)

theorem jsStableSortDesc_perm (l : List SearchResult) :
    (jsStableSortDesc l).Perm l := by
  induction l with
  | nil => rfl
  | cons a t ih =>
    exact (jsOrderedInsert_perm a (jsStableSortDesc t)).trans (ih.cons a)

theorem jsOrderedInsert_sorted (a : SearchResult) {l : List SearchResult}
    (h : l.Pairwise (fun x y => y.score ≤ x.score)) :
    (jsOrderedInsert a l).Pairwise (fun x y => y.score ≤ x.score) := by
  induction l with
  | nil => simp [jsOrderedInsert]
  | cons b t ih =>
    rw [List.pairwise_cons] at h
    unfold jsOrderedInsert
    by_cases hb : b.score ≤ a.score
    · rw [if_pos hb]
      refine List.Pairwise.cons ?_ (List.Pairwise.cons h.1 h.2)
      intro y hy
      rcases List.mem_cons.mp hy with rfl | hy
      · exact hb
      · exact le_trans (h.1 y hy) hb
    · rw [if_neg hb]
      refine List.Pairwise.cons ?_ (ih h.2)
      intro y hy
      have : y ∈ a :: t := (jsOrderedInsert_perm a t).mem_iff.mp hy
      rcases List.mem_cons.mp this with rfl | hy2
      · exact le_of_lt (lt_of_not_le hb)
      · exact h.1 y hy2

theorem jsStableSortDesc_sorted (l : List SearchResult) :
    (jsStableSortDesc l).Pairwise (fun x y => y.score ≤ x.score) := by
  induction l with
  | nil => simp [jsStableSortDesc]
  | cons a t ih => exact jsOrderedInsert_sorted a ih

theorem jsOrderedInsert_filter (a : SearchResult) (l : List SearchResult)
    (c : Int) :
    (jsOrderedInsert a l).filter (fun x => x.score == c) =
      if a.score = c then a :: l.filter (fun x => x.score == c)
      else l.filter (fun x => x.score == c) := by
  induction l with
  | nil =>
    by_cases hc : a.score = c <;>
      simp [jsOrderedInsert, List.filter_cons, hc]
  | cons b t ih =>
    unfold jsOrderedInsert
    by_cases hb : b.score ≤ a.score
    · rw [if_pos hb]
      by_cases hc : a.score = c <;>
        simp [List.filter_cons, hc]
    · rw [if_neg hb]
      by_cases hc : a.score = c
      · have hbc : b.score ≠ c := fun hbc => hb (le_of_eq (hbc.trans hc.symm))
        simp [List.filter_cons, hc, hbc, ih]
      · by_cases hbc : b.score = c <;>
          simp [List.filter_cons, hc, hbc, ih]

theorem jsStableSortDesc_filter (l : List SearchResult) (c : Int) :
    (jsStableSortDesc l).filter (fun x => x.score == c) =
      l.filter (fun x => x.score == c) := by
  induction l with
  | nil => rfl
  | cons a t ih =>
    show (jsOrderedInsert a (jsStableSortDesc t)).filter _ = _
    rw [jsOrderedInsert_filter, List.filter_cons]
    by_cases hc : a.score = c
    · rw [if_pos hc, if_pos (by simpa using hc), ih]
    · rw [if_neg hc, if_neg (by simpa using hc), ih]

/-- Claim C7: searchContent sorts all retrieved candidates descending by
score with a stable sort (elements of equal score keep their retrieval
order: filtering the sorted list to any fixed score yields exactly the
same subsequence as filtering the candidates), applies pagination only
after the full sort by slicing positions offset to offset + limit, and
reports the number of retrieved candidates as total, not the page
size. -/
theorem searchContent_sorted_pagination
    (calcRel : SearchDoc → String → Int) (docs : List SearchDoc)
    (query : String) (lim offset : Nat) :
    (searchContent calcRel docs query lim offset).total =
      (candidateResults calcRel docs query).length ∧
    (candidateResults calcRel docs query).length = docs.length ∧
    (searchContent calcRel docs query lim offset).results =
      ((jsStableSortDesc (candidateResults calcRel docs query)).drop
        offset).take lim ∧
    (jsStableSortDesc (candidateResults calcRel docs query)).Perm
      (candidateResults calcRel docs query) ∧
    (jsStableSortDesc (candidateResults calcRel docs query)).Pairwise
      (fun x y => y.score ≤ x.score) ∧
    (∀ c : Int,
      (jsStableSortDesc (candidateResults calcRel docs query)).filter
        (fun x => x.score == c) =
      (candidateResults calcRel docs query).filter
        (fun x => x.score == c)) :=
  ⟨rfl, List.length_map _ _, rfl, jsStableSortDesc_perm _,
    jsStableSortDesc_sorted _, fun c => jsStableSortDesc_filter _ c⟩

/-
  calculateRelevance title component, from the search service.  The full
  scoring function mixes the integer boosts with a real logarithm on the
  content-match count; the title branch (exact match / partial match /
  no match) is integer-valued and modelled exactly.
-/

/-- JavaScript split on a run of whitespace, the semantics of
String.prototype.split with a one-or-more-whitespace pattern: maximal
whitespace runs separate tokens, and a leading or trailing run
contributes an empty token. -/
def jsSplitWsGo : Str → Str → Bool → List Str
  | [], acc, _ => [acc.reverse]
  | c :: rest, acc, inRun =>
    if isWsChar c then
      if inRun then jsSplitWsGo rest acc true
      else acc.reverse :: jsSplitWsGo rest [] true
    else jsSplitWsGo rest (c :: acc) false

def jsSplitWs (l : Str) : List Str :=
  jsSplitWsGo l [] false

/-- Word list of a JavaScript string split on whitespace runs. -/
def jsSplitWsStr (s : String) : List String :=
  (jsSplitWs s.data).map String.mk

/-- JavaScript String.prototype.includes on strings. -/
def containsSubStr (hay needle : String) : Bool :=
  containsSub hay.data needle.data

/-- The title contribution of calculateRelevance: an exact
case-insensitive title match earns 50; otherwise, when the lowercased
title contains the lowercased query as a substring, each query word that
occurs among the title's words earns 15; a missing or empty title, or a
title not containing the query substring, earns nothing. -/
def titleContribution (title query : String) : Nat :=
  if title ≠ "" ∧ jsToLower title = jsToLower query then 50
  else if title ≠ "" ∧
      containsSubStr (jsToLower title) (jsToLower query) = true then
    ((jsSplitWsStr (jsToLower query)).filter
      (fun qw => (jsSplitWsStr (jsToLower title)).contains qw)).length * 15
  else 0

theorem isPrefixL_self (l : Str) : isPrefixL l l = true := by
  induction l with
  | nil => rfl
  | cons a t ih => simp [isPrefixL, ih]

theorem containsSub_self (l : Str) : containsSub l l = true := by
  unfold containsSub
  rw [isPrefixL_self]
  simp

/-- Claim C2, counterexample.  For query alpha beta and title beta
alpha, every query word occurs as a whole word among the title's words
(the filtered count is 2), yet the title contribution is 0, not
2 * 15 = 30: the per-word bonus is only reachable when the title
contains the entire query as a contiguous substring. -/
theorem titleContribution_counterexample :
    titleContribution "beta alpha" "alpha beta" = 0 ∧
    ((jsSplitWsStr (jsToLower "alpha beta")).filter
      (fun qw => (jsSplitWsStr (jsToLower "beta alpha")).contains qw)).length
      = 2 ∧
    (0 : Nat) ≠ 2 * 15 := by
  refine ⟨by decide, by decide, by decide⟩

/-- Claim C2 (amended): the title contribution of calculateRelevance is
50 on an exact case-insensitive match; it is 15 per query word occurring
among the title's words only when the lowercased title contains the
whole lowercased query as a contiguous substring; and it is 0 whenever
the title does not contain the query as a substring (even if every
query word occurs as a whole word in the title) or the title is
empty. -/
theorem titleContribution_characterization (title query : String) :
    (title ≠ "" → jsToLower title = jsToLower query →
      titleContribution title query = 50) ∧
    (title ≠ "" → jsToLower title ≠ jsToLower query →
      containsSubStr (jsToLower title) (jsToLower query) = true →
      titleContribution title query =
        ((jsSplitWsStr (jsToLower query)).filter
          (fun qw => (jsSplitWsStr (jsToLower title)).contains qw)).length
          * 15) ∧
    (containsSubStr (jsToLower title) (jsToLower query) = false →
      titleContribution title query = 0) ∧
    (title = "" → titleContribution title query = 0) := by
  refine ⟨?_, ?_, ?_, ?_⟩
  · intro h1 h2
    unfold titleContribution
    rw [if_pos ⟨h1, h2⟩]
  · intro h1 h2 h3
    unfold titleContribution
    rw [if_neg (by intro hx; exact h2 hx.2), if_pos ⟨h1, h3⟩]
  · intro hcf
    unfold titleContribution
    rw [if_neg, if_neg]
    · rintro ⟨-, hx⟩
      rw [hx] at hcf
      simp at hcf
    · rintro ⟨-, hx⟩
      unfold containsSubStr at hcf
      rw [hx, containsSub_self] at hcf
      simp at hcf
  · intro h1
    unfold titleContribution
    rw [if_neg (by rintro ⟨hx, -⟩; exact hx h1),
      if_neg (by rintro ⟨hx, -⟩; exact hx h1)]

/-- Witness for the amended C2 theorem at concrete titles and queries. -/
theorem titleContribution_characterization_witness :
    titleContribution "Hello" "hello" = 50 ∧
    titleContribution "say alpha beta now" "Alpha beta" =
      ((jsSplitWsStr (jsToLower "Alpha beta")).filter
        (fun qw => (jsSplitWsStr
          (jsToLower "say alpha beta now")).contains qw)).length * 15 ∧
    titleContribution "unrelated" "query" = 0 :=
  ⟨(titleContribution_characterization "Hello" "hello").1
      (by decide) (by decide),
   (titleContribution_characterization "say alpha beta now" "Alpha beta").2.1
      (by decide) (by decide) (by decide),
   (titleContribution_characterization "unrelated" "query").2.2.1
      (by decide)⟩

/-
  Page Renderer/Extractor directive logic, from fetchAndParsePage in
  src/services/crawler.js.  The browser navigation and the HTML field
  extraction are the renderer contract: a Rendered record carries the
  response's X-Robots-Tag header (absent modelled as none, defaulted to
  the empty string as in the source), the meta robots content attribute,
  the extracted metadata fields, the anchor hrefs and the cleaned main
  content text.  The directive parsing and the noindex, nofollow and
  nosnippet handling follow the source line by line.
-/

/-- JavaScript String.prototype.split on a single separator character:
every separator occurrence delimits a token, empty tokens included. -/
def splitOnChar (sep : Char) : Str → Str → List Str
  | [], acc => [acc.reverse]
  | c :: rest, acc =>
    if c == sep then acc.reverse :: splitOnChar sep rest []
    else splitOnChar sep rest (c :: acc)

/-- JavaScript String.prototype.trim, ASCII whitespace fragment. -/
def trimWs (l : Str) : Str :=
  ((l.dropWhile isWsChar).reverse.dropWhile isWsChar).reverse

/-- The directive-list parsing shared by the header and the meta tag:
lowercase, split on commas, trim each entry. -/
def parseRobotsDirectives (s : String) : List String :=
  (splitOnChar ',' (jsToLower s).data []).map (fun d => String.mk (trimWs d))

structure Rendered where
  xRobotsTag : Option String
  robotsMeta : Option String
  title : String
  metaDescription : String
  metaKeywords : String
  metaAuthor : String
  metaCopyright : String
  metaContentType : String
  content : String
  links : List String
deriving DecidableEq

structure PageExtract where
  url : String
  domain : String
  title : String
  metaDescription : String
  metaKeywords : String
  metaAuthor : String
  metaCopyright : String
  metaContentType : String
  content : String
  links : List String
  nofollow : Bool
  nosnippet : Bool
deriving DecidableEq

/-- fetchAndParsePage from src/services/crawler.js, given the rendered
page: parse the X-Robots-Tag directives, return null on a header
noindex; parse the meta robots directives, return null on a meta
noindex; otherwise build the page record, blanking metaDescription under
an effective nosnippet and the links under an effective nofollow. -/
def fetchAndParsePage (url hostname : String) (r : Rendered) :
    Option PageExtract :=
  let xDirs := parseRobotsDirectives (r.xRobotsTag.getD "")
  let xRobotsNoindex := xDirs.contains "noindex" || xDirs.contains "none"
  let xRobotsNofollow := xDirs.contains "nofollow" || xDirs.contains "none"
  let xRobotsNosnippet := xDirs.contains "nosnippet"
  if xRobotsNoindex then none
  else
    let mDirs := parseRobotsDirectives (r.robotsMeta.getD "")
    let noindex := mDirs.contains "noindex" || mDirs.contains "none"
    let nofollow := mDirs.contains "nofollow" || mDirs.contains "none" ||
      xRobotsNofollow
    let nosnippet := mDirs.contains "nosnippet" || xRobotsNosnippet
    if noindex then none
    else some
      { url := url
        domain := hostname
        title := r.title
        metaDescription := if nosnippet then "" else r.metaDescription
        metaKeywords := r.metaKeywords
        metaAuthor := r.metaAuthor
        metaCopyright := r.metaCopyright
        metaContentType := r.metaContentType
        content := r.content
        links := if nofollow then [] else r.links
        nofollow := nofollow
        nosnippet := nosnippet }

/-- The noindex, nofollow, nosnippet flags of one directive source (the
spec's per-source parse; none implies noindex and nofollow). -/
def robotsFlags (s : String) : Bool × Bool × Bool :=
  ((parseRobotsDirectives s).contains "noindex" ||
     (parseRobotsDirectives s).contains "none",
   (parseRobotsDirectives s).contains "nofollow" ||
     (parseRobotsDirectives s).contains "none",
   (parseRobotsDirectives s).contains "nosnippet")

/-- Claim C3: the X-Robots-Tag header and the meta robots tag are parsed
independently into noindex, nofollow, nosnippet flags combined by
logical OR: an effective noindex makes fetchAndParsePage return null;
otherwise the result's links are emptied exactly under an effective
nofollow, its metaDescription is emptied exactly under an effective
nosnippet, and the content is extracted unaffected. -/
theorem fetchAndParsePage_directives (url hostname : String)
    (r : Rendered) :
    (((robotsFlags (r.xRobotsTag.getD "")).1 ||
        (robotsFlags (r.robotsMeta.getD "")).1) = true →
      fetchAndParsePage url hostname r = none) ∧
    (((robotsFlags (r.xRobotsTag.getD "")).1 ||
        (robotsFlags (r.robotsMeta.getD "")).1) = false →
      ∃ pe, fetchAndParsePage url hostname r = some pe ∧
        pe.links = (if ((robotsFlags (r.xRobotsTag.getD "")).2.1 ||
            (robotsFlags (r.robotsMeta.getD "")).2.1) = true then []
          else r.links) ∧
        pe.metaDescription =
          (if ((robotsFlags (r.xRobotsTag.getD "")).2.2 ||
            (robotsFlags (r.robotsMeta.getD "")).2.2) = true then ""
          else r.metaDescription) ∧
        pe.content = r.content ∧
        pe.title = r.title) := by
  cases h1 : (parseRobotsDirectives (r.xRobotsTag.getD "")).contains
      "noindex" <;>
  cases h2 : (parseRobotsDirectives (r.xRobotsTag.getD "")).contains
      "none" <;>
  cases h5 : (parseRobotsDirectives (r.robotsMeta.getD "")).contains
      "noindex" <;>
  cases h6 : (parseRobotsDirectives (r.robotsMeta.getD "")).contains
      "none" <;>
    simp_all [fetchAndParsePage, robotsFlags]
  all_goals exact ⟨by simp only [or_comm], by simp only [or_comm]⟩

def rXNoindex : Rendered :=
  { xRobotsTag := some "NOINDEX, nofollow"
    robotsMeta := none
    title := "T"
    metaDescription := "D"
    metaKeywords := ""
    metaAuthor := ""
    metaCopyright := ""
    metaContentType := ""
    content := "body text"
    links := ["https://w.ygg/a"] }

def rMixed : Rendered :=
  { xRobotsTag := some "nosnippet"
    robotsMeta := some "nofollow"
    title := "T"
    metaDescription := "D"
    metaKeywords := ""
    metaAuthor := ""
    metaCopyright := ""
    metaContentType := ""
    content := "body text"
    links := ["https://w.ygg/a"] }

/-- Witness for C3 at two concrete rendered pages: a header noindex page
yields null, and a page with a header nosnippet plus a meta nofollow
yields a record with empty links and empty metaDescription but intact
content. -/
theorem fetchAndParsePage_directives_witness :
    fetchAndParsePage "https://w.ygg/" "w.ygg" rXNoindex = none ∧
    (∃ pe, fetchAndParsePage "https://w.ygg/" "w.ygg" rMixed = some pe ∧
      pe.links = (if ((robotsFlags (rMixed.xRobotsTag.getD "")).2.1 ||
          (robotsFlags (rMixed.robotsMeta.getD "")).2.1) = true then []
        else rMixed.links) ∧
      pe.metaDescription =
        (if ((robotsFlags (rMixed.xRobotsTag.getD "")).2.2 ||
          (robotsFlags (rMixed.robotsMeta.getD "")).2.2) = true then ""
        else rMixed.metaDescription) ∧
      pe.content = rMixed.content ∧
      pe.title = rMixed.title) :=
  ⟨(fetchAndParsePage_directives "https://w.ygg/" "w.ygg" rXNoindex).1
      (by decide),
   (fetchAndParsePage_directives "https://w.ygg/" "w.ygg" rMixed).2
      (by decide)⟩

/-
  Compliance Engine, from src/services/robots.js.  The robots-parser npm
  package is an external dependency whose sources are not part of the
  repository; its parse result is modelled from the spec.  The cache is
  dropped: it only affects the staleness of answers, not the values
  under study.  The axios call is abstracted as a fetch outcome: an HTTP
  response with status and body, or a failure (timeout, network error,
  or a status outside the validateStatus whitelist, which axios
  surfaces as a thrown error).
-/

structure ParsedRobots where
  disallows : List String
  crawlDelay : Option Nat
  sitemaps : List String
deriving DecidableEq

/-- Decimal number parsing for the crawl-delay value. -/
def parseNatL (l : Str) : Option Nat :=
  if l = [] then none
  else if l.all (fun c => c.isDigit) then
    some (l.foldl (fun acc c => acc * 10 + (c.toNat - 48)) 0)
  else none

/-- Modelled from the spec: the robots-parser library (an external npm
dependency, not in the repository) parses robots.txt content into
allow/disallow rule sets, an optional crawl-delay and zero or more
sitemap URLs; empty content yields no rules at all.  The per-user-agent
grouping is flattened since only the empty-content behaviour decides
the claim under study. -/
def robotsParse (content : String) : ParsedRobots :=
  (splitOnChar '\n' content.data []).foldl (fun pr line =>
    let field := jsToLower (String.mk (trimWs (line.takeWhile (· != ':'))))
    match line.dropWhile (· != ':') with
    | ':' :: rest =>
      let value := String.mk (trimWs rest)
      if field = "disallow" ∧ value ≠ "" then
        { pr with disallows := pr.disallows ++ [value] }
      else if field = "crawl-delay" then
        { pr with crawlDelay := parseNatL value.data }
      else if field = "sitemap" then
        { pr with sitemaps := pr.sitemaps ++ [value] }
      else pr
    | _ => pr) ⟨[], none, []⟩

/-- Modelled from the spec: a URL is allowed when no disallow rule
prefixes its path. -/
def robotsIsAllowed (p : ParsedRobots) (path : String) : Bool :=
  !(p.disallows.any (fun d => isPrefixL d.data path.data))

inductive FetchOutcome where
  | ok (status : Nat) (body : String)
  | err
deriving DecidableEq

/-- getRobotsTxt from src/services/robots.js: a 200 response body is
parsed as directives, a 404 is parsed as the empty string, and any
fetch failure (including statuses rejected by validateStatus, which the
HTTP client raises as errors into the catch) is parsed as the empty
string. -/
def getRobotsTxt (fetch : FetchOutcome) : ParsedRobots :=
  match fetch with
  | .ok 200 body => robotsParse body
  | .ok 404 _ => robotsParse ""
  | .ok _ _ => robotsParse ""
  | .err => robotsParse ""

/-- isAllowedByRobots from src/services/robots.js; a URL parse failure
falls into the catch and is allowed. -/
def isAllowedByRobots (fetch : FetchOutcome) (url : String) : Bool :=
  match parseUrl url.data with
  | none => true
  | some o => robotsIsAllowed (getRobotsTxt fetch) (String.mk o.pathname)

/-- getCrawlDelay from src/services/robots.js; the source's
getCrawlDelay(userAgent) of an empty rule set is undefined, and
undefined or-zero is 0. -/
def getCrawlDelay (fetch : FetchOutcome) (url : String) : Nat :=
  match parseUrl url.data with
  | none => 0
  | some _ => (getRobotsTxt fetch).crawlDelay.getD 0

/-- Claim C9: a 404 robots.txt response or any fetch failure resolves to
the permissive default: every URL is allowed, the crawl delay is 0, and
no robots-declared sitemaps exist; the three operations return plain
values, never an error. -/
theorem robots_permissive_default (fetch : FetchOutcome) (url b : String)
    (h : fetch = .ok 404 b ∨ fetch = .err) :
    isAllowedByRobots fetch url = true ∧ getCrawlDelay fetch url = 0 ∧
    (getRobotsTxt fetch).sitemaps = [] := by
  have hg : getRobotsTxt fetch = ⟨[], none, []⟩ := by
    rcases h with rfl | rfl
    · rfl
    · rfl
  refine ⟨?_, ?_, ?_⟩
  · unfold isAllowedByRobots
    split
    · rfl
    · rw [hg]
      rfl
  · unfold getCrawlDelay
    split
    · rfl
    · rw [hg]
      rfl
  · rw [hg]

/-- Witness for C9 at a concrete 404 outcome and URL. -/
theorem robots_permissive_default_witness :
    isAllowedByRobots (.ok 404 "") "https://r.ygg/private/page" = true ∧
    getCrawlDelay (.ok 404 "") "https://r.ygg/private/page" = 0 ∧
    (getRobotsTxt (.ok 404 "")).sitemaps = [] :=
  robots_permissive_default (.ok 404 "") "https://r.ygg/private/page" ""
    (Or.inl rfl)

/-
  CrawlJob lifecycle, from src/routes/crawler.js (the submit route) and
  src/services/crawler.js (updateCrawlJob and the lifecycle updates in
  crawlUrl).  The document store is an association list of job documents
  keyed by their _id; insert is the create-or-replace upsert of the
  store, get is lookup by _id (a missing document raises, which
  updateCrawlJob catches, logs, and swallows, leaving the store
  untouched).  Timestamp fields carry no logic and are dropped.
-/

structure JobDoc where
  docId : String
  status : String
  url : String
  maxDepth : Nat
  pagesProcessed : Option Nat
  error : Option String
deriving DecidableEq

abbrev JobDb := List JobDoc

def dbGet (db : JobDb) (id : String) : Option JobDoc :=
  db.find? (fun d => d.docId == id)

def dbInsert (db : JobDb) (doc : JobDoc) : JobDb :=
  if db.any (fun d => d.docId == doc.docId) then
    db.map (fun d => if d.docId == doc.docId then doc else d)
  else db ++ [doc]

structure JobUpdate where
  status : Option String
  pagesProcessed : Option Nat
  error : Option String
deriving DecidableEq

/-- The JavaScript object spread of the fetched document with the
update object: present update fields override. -/
def applyJobUpdate (d : JobDoc) (u : JobUpdate) : JobDoc :=
  { d with
    status := u.status.getD d.status
    pagesProcessed :=
      match u.pagesProcessed with
      | some v => some v
      | none => d.pagesProcessed
    error :=
      match u.error with
      | some e => some e
      | none => d.error }

/-- The submit route of src/routes/crawler.js: stores the new crawl job
under document id crawl_ followed by the crawl id, in status
pending. -/
def submitCrawlJob (db : JobDb) (crawlId url : String) (maxDepth : Nat) :
    JobDb :=
  dbInsert db
    { docId := "crawl_" ++ crawlId
      status := "pending"
      url := url
      maxDepth := maxDepth
      pagesProcessed := none
      error := none }

/-- updateCrawlJob from src/services/crawler.js: get the document with
id crawl: followed by the crawl id and insert the merged document; when
the get fails (no such document) the error is caught and logged and the
store is left unchanged. -/
def updateCrawlJob (db : JobDb) (crawlId : String) (u : JobUpdate) :
    JobDb :=
  match dbGet db ("crawl:" ++ crawlId) with
  | none => db
  | some doc => dbInsert db (applyJobUpdate doc u)

/-- The lifecycle updates crawlUrl performs around its loop: to running
on entry, and to completed with the final pagesProcessed on loop
exhaustion.  The failed transition in the outer catch block goes through
the same updateCrawlJob with the same document id. -/
def crawlJobLifecycle (db : JobDb) (crawlId : String)
    (finalProcessed : Nat) : JobDb :=
  let db1 := updateCrawlJob db crawlId
    { status := some "running", pagesProcessed := none, error := none }
  updateCrawlJob db1 crawlId
    { status := some "completed", pagesProcessed := some finalProcessed
      error := none }

/-- Claim C1 evidence: the submit route creates the job document under
id crawl_123, but every lifecycle update looks up id crawl:123, whose
get fails and is swallowed; after a full run the submitted job document
still has status pending and no document crawl:123 exists, so the
persisted record never transitions pending to running to completed. -/
theorem crawl_job_lifecycle_bug :
    dbGet (crawlJobLifecycle
        (submitCrawlJob [] "123" "https://a.ygg" 3) "123" 5) "crawl_123" =
      some
        { docId := "crawl_123"
          status := "pending"
          url := "https://a.ygg"
          maxDepth := 3
          pagesProcessed := none
          error := none } ∧
    dbGet (crawlJobLifecycle
        (submitCrawlJob [] "123" "https://a.ygg" 3) "123" 5) "crawl:123" =
      none := by
  refine ⟨by decide, by decide⟩
